import Mathlib

/-!
Shallow embedding of the RecipeVerse backend (routes/recipes.js, routes/users.js,
the enhanced variants in the repository) sufficient to settle the frozen claims.

Conventions of the embedding:
* MongoDB ObjectIds are modelled as `Nat`.
* JS strings are Lean `String`s; `trim`/`toLowerCase` are the char-list
  functions `jsTrim`/`jsToLower` below (inputs in the witnesses are ASCII,
  where these agree with the JS behaviour).
* Arithmetic on rating averages is exact rational arithmetic (`ℚ`); the
  values involved are small integers, where JS doubles are exact.
* Route handlers that mutate state are functions `State → Except ApiErr State`
  (an `Except.error` response leaves the store untouched, as the handlers
  return before any `save`).
* The `$regex`-based search is modelled for literal search text (no regex
  metacharacters) as case-insensitive substring containment; regex
  metacharacter behaviour is outside the embedding.
-/

namespace RecipeVerse

/-- A rating sub-document: `{ user, value }` (models/Recipe ratings array). -/
structure Rating where
  user : Nat
  value : Int
deriving DecidableEq, Repr

/-- A comment sub-document: `{ user, text }`. -/
structure Comment where
  user : Nat
  text : String
deriving DecidableEq, Repr

/-- A recipe document as stored (models/Recipe). -/
structure Recipe where
  rid : Nat
  title : String
  description : String
  image : Option String
  tags : List String
  ingredients : List String
  instructions : List String
  author : Nat
  likes : List Nat
  ratings : List Rating
  comments : List Comment
  createdAt : Nat
deriving DecidableEq, Repr

/-- Error taxonomy of the HTTP handlers (400 / 403 / 404). -/
inductive ApiErr where
  | invalidInput (msg : String)
  | forbidden
  | notFound
deriving DecidableEq, Repr

/-- `$sum: '$ratings.value'` / `reduce((sum, r) => sum + r.value, 0)`. -/
def sumRatings (rs : List Rating) : Int :=
  (rs.map (·.value)).sum

/-- Average rating as computed both by the listing aggregation
(`$divide [$sum ratings.value, $cond [size > 0, size, 1]]`, part_002 lines
163–172) and by the single fetch / rate handlers
(`reduce(...) / (ratings.length || 1)`, part_002 lines 231–233 and 504–505). -/
def avgRating (rs : List Rating) : ℚ :=
  (sumRatings rs : ℚ) / (if rs.length > 0 then (rs.length : ℚ) else 1)

/-- `parseFloat(avg.toFixed(1))` / `$round: [avg, 1]`: round to one decimal. -/
def round1 (q : ℚ) : ℚ :=
  (round (q * 10) : ℚ) / 10


/-- Leading/trailing-whitespace removal on characters (JS
`String.prototype.trim`), written so that it evaluates by reduction. -/
def trimChars (cs : List Char) : List Char :=
  ((cs.dropWhile Char.isWhitespace).reverse.dropWhile Char.isWhitespace).reverse

/-- JS `trim` on strings. -/
def jsTrim (s : String) : String :=
  String.mk (trimChars s.toList)

/-- JS `toLowerCase` (ASCII, as all witness inputs are). -/
def jsToLower (s : String) : String :=
  String.mk (s.toList.map Char.toLower)

/-- part_002 372–397: find the user's index in `likes`; splice it out if
found (removing the first occurrence), else push; `liked` reports which. -/
def likeToggle (likes : List Nat) (u : Nat) : List Nat × Bool :=
  if likes.contains u then (likes.erase u, false) else (likes ++ [u], true)

/-- routes/recipes.js 130–150: the same toggle, removing via
`filter(id => id !== userId)` (every occurrence) instead of a splice. -/
def likeToggleFilter (likes : List Nat) (u : Nat) : List Nat × Bool :=
  if likes.contains u then (likes.filter (fun x => x != u), false)
  else (likes ++ [u], true)

/-- The JSON body of the like response. -/
structure LikeResponse where
  likesCount : Nat
  liked : Bool
deriving DecidableEq, Repr

/-- POST /:id/like (part_002 372–402): new likes array plus the response. -/
def likeRoute (likes : List Nat) (u : Nat) : List Nat × LikeResponse :=
  let t := likeToggle likes u
  (t.1, { likesCount := t.1.length, liked := t.2 })

/-- part_002 497: `recipe.ratings[existingRatingIndex].value = ratingValue` —
replace the value of the first rating entry whose user is `u`. -/
def setFirstRating (u : Nat) (v : Int) : List Rating → List Rating
  | [] => []
  | r :: rest =>
    if r.user = u then { r with value := v } :: rest
    else r :: setFirstRating u v rest

/-- JS `parseInt` applied to a number in plain decimal notation: the number
is truncated toward zero (part_002 line 479 `parseInt(value)`; exponential
string forms of extreme magnitudes are outside the embedding). -/
def jsParseInt (q : ℚ) : Int :=
  Int.tdiv q.num (q.den : Int)

/-- POST /:id/rate (part_002 476–517): `parseInt` the submitted value,
reject the truncation outside 1–5 with a 400, else upsert keyed by the user
(replace the first existing entry or push). A fractional submission such as
4.5 is therefore accepted, stored truncated. -/
def rateUpsert (ratings : List Rating) (u : Nat) (value : ℚ) : Except ApiErr (List Rating) :=
  let ratingValue := jsParseInt value
  if ratingValue < 1 ∨ 5 < ratingValue then
    .error (.invalidInput "Rating must be a number between 1 and 5")
  else if ratings.any (fun r => r.user == u) then .ok (setFirstRating u ratingValue ratings)
  else .ok (ratings ++ [⟨u, ratingValue⟩])

/-- Run a sequence of rate submissions by user `u` through the part_002
handler; a rejected submission (400 response) leaves the ratings
unchanged. -/
def applyRates (u : Nat) (ratings : List Rating) : List ℚ → List Rating
  | [] => ratings
  | v :: vs =>
    applyRates u
      (match rateUpsert ratings u v with
        | .ok rs => rs
        | .error _ => ratings) vs

/-- The truncation of the most recent submission the part_002 handler
accepts (truncated value in 1–5), if any. -/
def lastAccepted : List ℚ → Option Int
  | [] => none
  | v :: vs =>
    match lastAccepted vs with
    | some w => some w
    | none => if jsParseInt v < 1 ∨ 5 < jsParseInt v then none else some (jsParseInt v)

/-- A rating sub-document as the routes/recipes.js variant stores it: the
raw submitted number, fractional values included. -/
structure RatingQ where
  user : Nat
  value : ℚ
deriving DecidableEq, Repr

/-- routes/recipes.js 202: `existingRating.value = value` — replace the
value of the first raw rating entry whose user is `u`. -/
def setFirstRatingQ (u : Nat) (v : ℚ) : List RatingQ → List RatingQ
  | [] => []
  | r :: rest =>
    if r.user = u then { r with value := v } :: rest
    else r :: setFirstRatingQ u v rest

/-- POST /:id/rate in routes/recipes.js 188–216: reject a raw value outside
[1, 5] with a 400 (`!value` only excludes 0, itself below 1), else upsert
the raw — possibly fractional — value keyed by the user. -/
def rateUpsertRaw (ratings : List RatingQ) (u : Nat) (value : ℚ) :
    Except ApiErr (List RatingQ) :=
  if value < 1 ∨ 5 < value then
    .error (.invalidInput "Rating must be between 1 and 5")
  else if ratings.any (fun r => r.user == u) then .ok (setFirstRatingQ u value ratings)
  else .ok (ratings ++ [⟨u, value⟩])

/-- Run a sequence of rate submissions by user `u` through the
routes/recipes.js handler. -/
def applyRatesRaw (u : Nat) (ratings : List RatingQ) : List ℚ → List RatingQ
  | [] => ratings
  | v :: vs =>
    applyRatesRaw u
      (match rateUpsertRaw ratings u v with
        | .ok rs => rs
        | .error _ => ratings) vs

/-- The most recent submission lying in [1, 5] (accepted raw), if any. -/
def lastInRange : List ℚ → Option ℚ
  | [] => none
  | v :: vs =>
    match lastInRange vs with
    | some w => some w
    | none => if v < 1 ∨ 5 < v then none else some v

/-- `[...new Set(xs)]`: deduplicate keeping the first occurrence of each tag. -/
def dedupFirst (seen : List String) : List String → List String
  | [] => []
  | x :: xs => if x ∈ seen then dedupFirst seen xs else x :: dedupFirst (x :: seen) xs

/-- part_002 98–109, the tags branch of `validateRecipeData`: map
trim+lowercase, drop empty strings, `slice(0, 10)` when longer than 10, then
deduplicate. -/
def normalizeTags (ts : List String) : List String :=
  let mapped := (ts.map (fun t => jsToLower (jsTrim t))).filter (fun t => t != "")
  let truncated := if mapped.length > 10 then mapped.take 10 else mapped
  dedupFirst [] truncated

/-- What the spec sentence describes: deduplicate first (keeping first
occurrence), then truncate to the first 10. Present only to compare with
`normalizeTags`. -/
def normalizeTagsSpec (ts : List String) : List String :=
  (dedupFirst [] ((ts.map (fun t => jsToLower (jsTrim t))).filter (fun t => t != ""))).take 10

/-- Result of `JSON.parse` on a serialized list field, as far as the
validation inspects it: an array of strings, or not an array. -/
inductive JsonField where
  | notList
  | list (xs : List String)
deriving DecidableEq, Repr

/-- The `tags` field of the body: absent (falsy), or a parsed JSON payload. -/
inductive TagsField where
  | absent
  | notList
  | list (ts : List String)
deriving DecidableEq, Repr

/-- A raw creation/update payload as the validation middleware sees it. -/
structure RawPayload where
  title : String
  description : String
  ingredients : JsonField
  instructions : JsonField
  tags : TagsField
deriving DecidableEq, Repr

/-- The normalized draft the middleware attaches as `req.validatedData`. -/
structure Draft where
  title : String
  description : String
  ingredients : List String
  instructions : List String
  tags : List String
deriving DecidableEq, Repr

/-- part_002 61–123 `validateRecipeData` as a pure function: title required
and 3–100 chars; ingredients a non-empty list of ≤ 20 entries each non-blank
and ≤ 150 chars after trimming; instructions likewise with caps 15 / 300;
tags per `normalizeTags`, rejected when not a list. -/
def validateRecipeData (p : RawPayload) : Except ApiErr Draft :=
  if jsTrim p.title = "" then .error (.invalidInput "Title is required")
  else if (jsTrim p.title).length < 3 ∨ 100 < (jsTrim p.title).length then
    .error (.invalidInput "Title must be 3-100 characters")
  else match p.ingredients with
  | .notList => .error (.invalidInput "At least one ingredient is required")
  | .list ings =>
    if ings.length = 0 then .error (.invalidInput "At least one ingredient is required")
    else if 20 < ings.length then .error (.invalidInput "Maximum 20 ingredients allowed")
    else if ings.any (fun ing => decide (jsTrim ing = "" ∨ 150 < (jsTrim ing).length)) then
      .error (.invalidInput "Ingredient invalid")
    else match p.instructions with
    | .notList => .error (.invalidInput "At least one instruction step is required")
    | .list steps =>
      if steps.length = 0 then .error (.invalidInput "At least one instruction step is required")
      else if 15 < steps.length then .error (.invalidInput "Maximum 15 instruction steps allowed")
      else if steps.any (fun step => decide (jsTrim step = "" ∨ 300 < (jsTrim step).length)) then
        .error (.invalidInput "Instruction step invalid")
      else match p.tags with
      | .notList => .error (.invalidInput "Tags must be an array")
      | .absent => .ok
          { title := jsTrim p.title, description := jsTrim p.description,
            ingredients := ings.map jsTrim, instructions := steps.map jsTrim,
            tags := [] }
      | .list ts => .ok
          { title := jsTrim p.title, description := jsTrim p.description,
            ingredients := ings.map jsTrim, instructions := steps.map jsTrim,
            tags := normalizeTags ts }

/-- POST / (part_002 262–297): the validation middleware runs first; on
success a recipe with empty likes/ratings/comments and `author` set to the
caller is appended to the store. -/
def createRecipe (store : List Recipe) (nextId author createdAt : Nat)
    (image : Option String) (p : RawPayload) : Except ApiErr (List Recipe) :=
  match validateRecipeData p with
  | .error e => .error e
  | .ok d => .ok (store ++
      [{ rid := nextId, title := d.title,
         description := d.description, image := image, tags := d.tags,
         ingredients := d.ingredients, instructions := d.instructions,
         author := author, likes := [], ratings := [], comments := [],
         createdAt := createdAt }])

/-- `Recipe.findById`. -/
def findRecipe (store : List Recipe) (i : Nat) : Option Recipe :=
  store.find? (fun r => r.rid == i)

/-- DELETE /:id (part_002 342–369): 404 when absent, then the author-only
check (403), then `findByIdAndDelete`. -/
def deleteRecipe (store : List Recipe) (i caller : Nat) : Except ApiErr (List Recipe) :=
  match findRecipe store i with
  | none => .error .notFound
  | some r =>
    if r.author ≠ caller then .error .forbidden
    else .ok (store.filter (fun x => x.rid != i))

/-- PUT /:id (part_002 300–339), after the validation middleware produced a
draft: 404 when absent, then the author-only check, then
`Object.assign(recipe, validatedData)` and save. -/
def updateRecipe (store : List Recipe) (i caller : Nat) (d : Draft) : Except ApiErr (List Recipe) :=
  match findRecipe store i with
  | none => .error .notFound
  | some r =>
    if r.author ≠ caller then .error .forbidden
    else .ok (store.map (fun x =>
      if x.rid == i then
        { x with
          title := d.title, description := d.description,
          ingredients := d.ingredients, instructions := d.instructions,
          tags := d.tags }
      else x))

/-- The result of GET /:id (part_002 224–259). -/
structure FetchResult where
  recipe : Recipe
  avgRating : ℚ
  ratingsCount : Nat
deriving DecidableEq, Repr

/-- GET /:id (part_002 224–259): 404 when absent, else the recipe with its
computed rounded average rating and ratings count. -/
def getRecipe (store : List Recipe) (i : Nat) : Except ApiErr FetchResult :=
  match findRecipe store i with
  | none => .error .notFound
  | some r => .ok
      { recipe := r, avgRating := round1 (avgRating r.ratings),
        ratingsCount := r.ratings.length }

/-- Substring test on character lists: some tail of `hay` starts with
`needle`. -/
def charsContain (hay needle : List Char) : Bool :=
  hay.tails.any (fun t => needle.isPrefixOf t)

/-- `{ field: { $regex: search, $options: 'i' } }` for literal search text:
case-insensitive substring containment. -/
def ciContains (hay pat : String) : Bool :=
  charsContain (jsToLower hay).toList (jsToLower pat).toList

/-- part_002 144–150: the `$or` clause — title, description, or some tag
matches the search case-insensitively. -/
def matchesSearch (s : String) (r : Recipe) : Bool :=
  ciContains r.title s || ciContains r.description s ||
    r.tags.any (fun t => ciContains t s)

/-- part_002 141–155: the Mongo query built by the listing. JS truthiness of
the two query params is kept: an absent or empty `search`/`tag` adds no
clause; both clauses present means their conjunction. -/
def matchesQuery (search tag : Option String) (r : Recipe) : Bool :=
  (match search with
    | none => true
    | some s => if s = "" then true else matchesSearch s r) &&
  (match tag with
    | none => true
    | some t => if t = "" then true else r.tags.contains (jsToLower t))

/-- Sort key of the listing: `sortObj[sort === 'rating' ? 'avgRating' :
sort]`; the two documented keys (`createdAt` default, `rating`) are
modelled. -/
def sortKey (sort : String) (r : Recipe) : ℚ :=
  if sort = "rating" then avgRating r.ratings else (r.createdAt : ℚ)

/-- Comparator derived from the `sort` and `order` params
(`order === 'asc' ? 1 : -1`). -/
def sortLe (sort ord : String) (a b : Recipe) : Bool :=
  if ord = "asc" then decide (sortKey sort a ≤ sortKey sort b)
  else decide (sortKey sort b ≤ sortKey sort a)

/-- The `$sort` stage. -/
def sortRecipes (sort ord : String) (l : List Recipe) : List Recipe :=
  List.insertionSort (fun a b => sortLe sort ord a b = true) l

/-- A listing row as produced by the `$project` stage (author display data
comes from the external users collection and is carried as the id). -/
structure RecipeSummary where
  rid : Nat
  author : Nat
  title : String
  description : String
  image : Option String
  tags : List String
  avgRating : ℚ
  ratingsCount : Nat
  likesCount : Nat
  commentsCount : Nat
  createdAt : Nat
deriving DecidableEq, Repr

/-- The `$project` stage of the listing (part_002 186–200). -/
def projectSummary (r : Recipe) : RecipeSummary :=
  { rid := r.rid, author := r.author, title := r.title,
    description := r.description, image := r.image, tags := r.tags,
    avgRating := round1 (avgRating r.ratings),
    ratingsCount := r.ratings.length, likesCount := r.likes.length,
    commentsCount := r.comments.length, createdAt := r.createdAt }

/-- The pagination metadata of the listing response. -/
structure PageMeta where
  page : Nat
  limit : Nat
  total : Nat
  pages : Nat
  hasNext : Bool
  hasPrev : Bool
deriving DecidableEq, Repr

/-- The listing response body. -/
structure ListResponse where
  recipes : List RecipeSummary
  pageMeta : PageMeta
deriving DecidableEq, Repr

/-- GET / (part_002 126–216). `page`/`limit` arrive as parsed integers
(`parseInt`); `none` models an absent parameter (defaults 1 / 12).
`Math.ceil(total / limitNum)` is translated to the equivalent
`(total + limitNum - 1) / limitNum` on naturals (`limitNum ≥ 1`);
`countDocuments(query)` counts with the same filter as the `$match`. -/
def listRecipes (store : List Recipe) (search tag : Option String)
    (page limit : Option Int) (sort ord : String) : ListResponse :=
  let pageNum : Nat := (max 1 (page.getD 1)).toNat
  let limitNum : Nat := (min 50 (max 1 (limit.getD 12))).toNat
  let skip : Nat := (pageNum - 1) * limitNum
  let matched := store.filter (matchesQuery search tag)
  let pageItems := ((sortRecipes sort ord matched).drop skip).take limitNum
  let total := matched.length
  { recipes := pageItems.map projectSummary,
    pageMeta :=
      { page := pageNum, limit := limitNum, total := total,
        pages := (total + limitNum - 1) / limitNum,
        hasNext := decide (pageNum * limitNum < total),
        hasPrev := decide (1 < pageNum) } }

/-- The users collection as the follow toggle needs it: which ids exist, and
each user's `followers` / `following` arrays. -/
structure FollowState where
  present : Nat → Bool
  followers : Nat → List Nat
  following : Nat → List Nat

/-- POST /users/:id/follow (users.js 75–116 / part_003 84–130): reject
following yourself (400), 404 when either user is missing, else toggle both
arrays together — `pull` removes every occurrence, `push` appends. -/
def followToggle (s : FollowState) (current target : Nat) : Except ApiErr FollowState :=
  if target = current then .error (.invalidInput "Cant follow yourself")
  else if s.present target && s.present current then
    (if (s.following current).contains target then
      .ok { s with
        following := fun u =>
          if u = current then (s.following current).filter (fun x => x != target)
          else s.following u,
        followers := fun u =>
          if u = target then (s.followers target).filter (fun x => x != current)
          else s.followers u }
    else
      .ok { s with
        following := fun u =>
          if u = current then s.following current ++ [target] else s.following u,
        followers := fun u =>
          if u = target then s.followers target ++ [current] else s.followers u })
  else .error .notFound

/-- One follow request by `op.1` targeting `op.2`; an error response leaves
the users collection unchanged. -/
def followStep (s : FollowState) (op : Nat × Nat) : FollowState :=
  match followToggle s op.1 op.2 with
  | .ok s2 => s2
  | .error _ => s

/-- A sequence of follow requests. -/
def applyFollows (s : FollowState) (ops : List (Nat × Nat)) : FollowState :=
  ops.foldl followStep s

/-- The spec invariant on the follow graph: `A` is among `B`'s followers iff
`B` is among `A`'s following. -/
def FollowSym (s : FollowState) : Prop :=
  ∀ a b : Nat, a ∈ s.followers b ↔ b ∈ s.following a

/-- C1: the computed average rating is the sum of rating values divided by
their count, and 0 when there are no ratings; the divisor in the code
(`$cond [size > 0, size, 1]` / `length || 1`) is never zero; a recipe with
ratings `[3, 5]` has average 4 (also after rounding to one decimal). -/
theorem avgRating_sum_div_count :
    (∀ rs : List Rating,
      avgRating rs = if rs.length = 0 then 0 else (sumRatings rs : ℚ) / (rs.length : ℚ)) ∧
    (∀ rs : List Rating, (if rs.length > 0 then (rs.length : ℚ) else 1) ≠ 0) ∧
    avgRating [⟨7, 3⟩, ⟨9, 5⟩] = 4 ∧
    round1 (avgRating [⟨7, 3⟩, ⟨9, 5⟩]) = 4 := by
  refine ⟨fun rs => ?_, fun rs => ?_, ?_, ?_⟩
  · cases rs with
    | nil => simp [avgRating, sumRatings]
    | cons r t => simp [avgRating]
  · split
    · next h => positivity
    · norm_num
  · norm_num [avgRating, sumRatings]
  · have h : avgRating [⟨7, 3⟩, ⟨9, 5⟩] = 4 := by norm_num [avgRating, sumRatings]
    rw [h]
    have h10 : (4 : ℚ) * 10 = ((40 : ℤ) : ℚ) := by norm_num
    rw [round1, h10, round_intCast]
    norm_num

/-- C2: the like operation is a toggle keyed by (recipe, user): an already
liked recipe loses the user, an unliked one gains it, and the response
carries the new liked state and updated count; toggling twice restores the
likes set (as a set) and the likes count. Stated under the data-model
invariant that `likes` holds no duplicate user. Both implementations
(splice in part_002, filter in routes/recipes.js) are covered and agree. -/
theorem like_double_toggle (likes : List Nat) (u : Nat) (h : likes.Nodup) :
    ((likeRoute likes u).2.liked = !(likes.contains u)) ∧
    (u ∈ likes → u ∉ (likeRoute likes u).1) ∧
    (u ∉ likes → u ∈ (likeRoute likes u).1) ∧
    ((likeRoute likes u).2.likesCount = (likeRoute likes u).1.length) ∧
    (∀ x, x ∈ (likeToggle (likeToggle likes u).1 u).1 ↔ x ∈ likes) ∧
    ((likeToggle (likeToggle likes u).1 u).1.length = likes.length) ∧
    (likeToggleFilter likes u = likeToggle likes u) ∧
    (∀ x, x ∈ (likeToggleFilter (likeToggleFilter likes u).1 u).1 ↔ x ∈ likes) ∧
    ((likeToggleFilter (likeToggleFilter likes u).1 u).1.length = likes.length) := by
  have hfe : ∀ l : List Nat, l.Nodup → likeToggleFilter l u = likeToggle l u := by
    intro l hl
    by_cases hu : u ∈ l
    · simp [likeToggle, likeToggleFilter, hu, ← hl.erase_eq_filter]
    · simp [likeToggle, likeToggleFilter, hu]
  have hnd1 : (likeToggle likes u).1.Nodup := by
    by_cases hu : u ∈ likes
    · simpa [likeToggle, hu] using h.erase u
    · simp [likeToggle, hu, List.nodup_append, h, hu]
  have hdouble :
      (∀ x, x ∈ (likeToggle (likeToggle likes u).1 u).1 ↔ x ∈ likes) ∧
      (likeToggle (likeToggle likes u).1 u).1.length = likes.length := by
    by_cases hu : u ∈ likes
    · have h1 : (likeToggle likes u).1 = likes.erase u := by simp [likeToggle, hu]
      have hne : u ∉ likes.erase u := by
        intro hc
        exact ((h.mem_erase_iff).1 hc).1 rfl
      have h2 : (likeToggle (likes.erase u) u).1 = likes.erase u ++ [u] := by
        simp [likeToggle, hne]
      rw [h1, h2]
      constructor
      · intro x
        by_cases hx : x = u
        · subst hx; simp [hu]
        · simp [List.mem_append, h.mem_erase_iff, hx]
      · have hle := List.length_erase_of_mem hu
        have hpos : 0 < likes.length := List.length_pos_of_mem hu
        simp [List.length_append, hle]
        omega
    · have h1 : (likeToggle likes u).1 = likes ++ [u] := by simp [likeToggle, hu]
      have hu2 : u ∈ likes ++ [u] := by simp
      have h2 : (likeToggle (likes ++ [u]) u).1 = likes := by
        simp [likeToggle, hu2, List.erase_append_right _ hu]
      rw [h1, h2]
      simp
  refine ⟨?_, ?_, ?_, ?_, hdouble.1, hdouble.2, hfe likes h, ?_, ?_⟩
  · by_cases hu : u ∈ likes <;> simp [likeRoute, likeToggle, hu]
  · intro hu
    have h1 : (likeRoute likes u).1 = likes.erase u := by simp [likeRoute, likeToggle, hu]
    rw [h1]
    intro hc
    exact ((h.mem_erase_iff).1 hc).1 rfl
  · intro hu
    simp [likeRoute, likeToggle, hu]
  · simp [likeRoute]
  · rw [hfe likes h, hfe (likeToggle likes u).1 hnd1]
    exact hdouble.1
  · rw [hfe likes h, hfe (likeToggle likes u).1 hnd1]
    exact hdouble.2

/-- Witness for `like_double_toggle` at `likes = [5, 7]`, `u = 5`. -/
theorem like_double_toggle_witness :
    (likeToggle (likeToggle [5, 7] 5).1 5).1.length = ([5, 7] : List Nat).length :=
  (like_double_toggle [5, 7] 5 (by decide)).2.2.2.2.2.1

/-- `any` over the user predicate is positivity of the matching count. -/
theorem any_user_iff_countP (u : Nat) (l : List Rating) :
    l.any (fun r => r.user == u) = true ↔ 0 < l.countP (fun r => r.user == u) := by
  rw [List.any_eq_true, List.countP_pos_iff]

/-- No entry matches the user when `any` is false. -/
theorem not_any_user (u : Nat) (l : List Rating)
    (hex : ¬ l.any (fun r => r.user == u) = true) :
    ∀ x ∈ l, ¬ (x.user == u) = true := by
  intro x hx hxx
  exact hex (List.any_eq_true.2 ⟨x, hx, hxx⟩)

/-- Replacing the first matching entry's value keeps the per-user count. -/
theorem countP_setFirstRating (u : Nat) (v : Int) (rs : List Rating) :
    (setFirstRating u v rs).countP (fun r => r.user == u) =
      rs.countP (fun r => r.user == u) := by
  induction rs with
  | nil => rfl
  | cons r rest ih =>
    by_cases hr : r.user = u
    · simp [setFirstRating, hr, List.countP_cons]
    · simp [setFirstRating, hr, List.countP_cons, ih]

/-- After replacing the first matching entry's value, the first matching
entry is `⟨u, v⟩`. -/
theorem find_setFirstRating (u : Nat) (v : Int) (rs : List Rating)
    (h : rs.any (fun r => r.user == u) = true) :
    (setFirstRating u v rs).find? (fun r => r.user == u) = some ⟨u, v⟩ := by
  induction rs with
  | nil => simp at h
  | cons r rest ih =>
    by_cases hr : r.user = u
    · cases r with
      | mk ru rv =>
        simp at hr
        subst hr
        simp [setFirstRating, List.find?]
    · have h2 : rest.any (fun r => r.user == u) = true := by
        simp [List.any_cons, hr] at h
        simpa using h
      simp [setFirstRating, hr, List.find?, ih h2]

/-- Invariant of a sequence of rate submissions by one user through the
part_002 handler: starting from at most one entry for that user, the store
is unchanged while no submission was accepted, and otherwise holds exactly
one entry for the user, carrying the truncation of the most recent accepted
value. -/
theorem applyRates_invariant (u : Nat) (vs : List ℚ) :
    ∀ rs : List Rating, rs.countP (fun r => r.user == u) ≤ 1 →
      (lastAccepted vs = none → applyRates u rs vs = rs) ∧
      (∀ w, lastAccepted vs = some w →
        (applyRates u rs vs).countP (fun r => r.user == u) = 1 ∧
        (applyRates u rs vs).find? (fun r => r.user == u) = some ⟨u, w⟩) := by
  induction vs with
  | nil =>
    intro rs h
    exact ⟨fun _ => rfl, fun w hw => by simp [lastAccepted] at hw⟩
  | cons v vs ih =>
    intro rs h
    by_cases hv : jsParseInt v < 1 ∨ 5 < jsParseInt v
    · have hstep : applyRates u rs (v :: vs) = applyRates u rs vs := by
        simp [applyRates, rateUpsert, hv]
      have hlv : lastAccepted (v :: vs) = lastAccepted vs := by
        cases hlvs : lastAccepted vs with
        | none => simp [lastAccepted, hlvs, hv]
        | some w => simp [lastAccepted, hlvs]
      rw [hstep, hlv]
      exact ih rs h
    · by_cases hex : rs.any (fun r => r.user == u) = true
      · have hstep : applyRates u rs (v :: vs) =
            applyRates u (setFirstRating u (jsParseInt v) rs) vs := by
          simp [applyRates, rateUpsert, hv, hex]
        have hcnt : (setFirstRating u (jsParseInt v) rs).countP (fun r => r.user == u) ≤ 1 := by
          rw [countP_setFirstRating]; exact h
        have hcnt1 : rs.countP (fun r => r.user == u) = 1 := by
          have hpos := (any_user_iff_countP u rs).1 hex
          omega
        have ihs := ih (setFirstRating u (jsParseInt v) rs) hcnt
        constructor
        · intro hnone
          cases hlvs : lastAccepted vs with
          | none => simp [lastAccepted, hlvs, hv] at hnone
          | some w => simp [lastAccepted, hlvs] at hnone
        · intro w hw
          cases hlvs : lastAccepted vs with
          | some w2 =>
            have hww : w2 = w := by simp [lastAccepted, hlvs] at hw; exact hw
            rw [hstep, ← hww]
            exact ihs.2 w2 hlvs
          | none =>
            have hwv : jsParseInt v = w := by
              simp [lastAccepted, hlvs, hv] at hw
              omega
            rw [hstep, ihs.1 hlvs, ← hwv]
            constructor
            · rw [countP_setFirstRating]; exact hcnt1
            · exact find_setFirstRating u (jsParseInt v) rs hex
      · have hstep : applyRates u rs (v :: vs) =
            applyRates u (rs ++ [⟨u, jsParseInt v⟩]) vs := by
          simp [applyRates, rateUpsert, hv, hex]
        have hcnt0 : rs.countP (fun r => r.user == u) = 0 := by
          by_contra hc
          exact hex ((any_user_iff_countP u rs).2 (Nat.pos_of_ne_zero hc))
        have hcnt : (rs ++ [Rating.mk u (jsParseInt v)]).countP (fun r => r.user == u) ≤ 1 := by
          simp [List.countP_append, hcnt0, List.countP_cons]
        have ihs := ih (rs ++ [⟨u, jsParseInt v⟩]) hcnt
        constructor
        · intro hnone
          cases hlvs : lastAccepted vs with
          | none => simp [lastAccepted, hlvs, hv] at hnone
          | some w => simp [lastAccepted, hlvs] at hnone
        · intro w hw
          cases hlvs : lastAccepted vs with
          | some w2 =>
            have hww : w2 = w := by simp [lastAccepted, hlvs] at hw; exact hw
            rw [hstep, ← hww]
            exact ihs.2 w2 hlvs
          | none =>
            have hwv : jsParseInt v = w := by
              simp [lastAccepted, hlvs, hv] at hw
              omega
            rw [hstep, ihs.1 hlvs, ← hwv]
            have hfnone : rs.find? (fun r => r.user == u) = none :=
              List.find?_eq_none.2 (not_any_user u rs hex)
            constructor
            · simp [List.countP_append, hcnt0, List.countP_cons]
            · rw [List.find?_append, hfnone]
              simp [List.find?]

/-- `any` over the user predicate on raw entries is positivity of the
matching count. -/
theorem any_user_iff_countP_q (u : Nat) (l : List RatingQ) :
    l.any (fun r => r.user == u) = true ↔ 0 < l.countP (fun r => r.user == u) := by
  rw [List.any_eq_true, List.countP_pos_iff]

/-- No raw entry matches the user when `any` is false. -/
theorem not_any_user_q (u : Nat) (l : List RatingQ)
    (hex : ¬ l.any (fun r => r.user == u) = true) :
    ∀ x ∈ l, ¬ (x.user == u) = true := by
  intro x hx hxx
  exact hex (List.any_eq_true.2 ⟨x, hx, hxx⟩)

/-- Replacing the first matching raw entry's value keeps the per-user
count. -/
theorem countP_setFirstRatingQ (u : Nat) (v : ℚ) (rs : List RatingQ) :
    (setFirstRatingQ u v rs).countP (fun r => r.user == u) =
      rs.countP (fun r => r.user == u) := by
  induction rs with
  | nil => rfl
  | cons r rest ih =>
    by_cases hr : r.user = u
    · simp [setFirstRatingQ, hr, List.countP_cons]
    · simp [setFirstRatingQ, hr, List.countP_cons, ih]

/-- After replacing the first matching raw entry's value, the first
matching entry is `⟨u, v⟩`. -/
theorem find_setFirstRatingQ (u : Nat) (v : ℚ) (rs : List RatingQ)
    (h : rs.any (fun r => r.user == u) = true) :
    (setFirstRatingQ u v rs).find? (fun r => r.user == u) = some ⟨u, v⟩ := by
  induction rs with
  | nil => simp at h
  | cons r rest ih =>
    by_cases hr : r.user = u
    · cases r with
      | mk ru rv =>
        simp at hr
        subst hr
        simp [setFirstRatingQ, List.find?]
    · have h2 : rest.any (fun r => r.user == u) = true := by
        simp [List.any_cons, hr] at h
        simpa using h
      simp [setFirstRatingQ, hr, List.find?, ih h2]

/-- Invariant of a sequence of rate submissions by one user through the
routes/recipes.js handler: starting from at most one raw entry for that
user, the store is unchanged while no submission lay in [1, 5], and
otherwise holds exactly one entry for the user, carrying the raw most
recent in-range value. -/
theorem applyRatesRaw_invariant (u : Nat) (vs : List ℚ) :
    ∀ rs : List RatingQ, rs.countP (fun r => r.user == u) ≤ 1 →
      (lastInRange vs = none → applyRatesRaw u rs vs = rs) ∧
      (∀ w, lastInRange vs = some w →
        (applyRatesRaw u rs vs).countP (fun r => r.user == u) = 1 ∧
        (applyRatesRaw u rs vs).find? (fun r => r.user == u) = some ⟨u, w⟩) := by
  induction vs with
  | nil =>
    intro rs h
    exact ⟨fun _ => rfl, fun w hw => by simp [lastInRange] at hw⟩
  | cons v vs ih =>
    intro rs h
    by_cases hv : v < 1 ∨ 5 < v
    · have hstep : applyRatesRaw u rs (v :: vs) = applyRatesRaw u rs vs := by
        simp [applyRatesRaw, rateUpsertRaw, hv]
      have hlv : lastInRange (v :: vs) = lastInRange vs := by
        cases hlvs : lastInRange vs with
        | none => simp [lastInRange, hlvs, hv]
        | some w => simp [lastInRange, hlvs]
      rw [hstep, hlv]
      exact ih rs h
    · by_cases hex : rs.any (fun r => r.user == u) = true
      · have hstep : applyRatesRaw u rs (v :: vs) =
            applyRatesRaw u (setFirstRatingQ u v rs) vs := by
          simp [applyRatesRaw, rateUpsertRaw, hv, hex]
        have hcnt : (setFirstRatingQ u v rs).countP (fun r => r.user == u) ≤ 1 := by
          rw [countP_setFirstRatingQ]; exact h
        have hcnt1 : rs.countP (fun r => r.user == u) = 1 := by
          have hpos := (any_user_iff_countP_q u rs).1 hex
          omega
        have ihs := ih (setFirstRatingQ u v rs) hcnt
        constructor
        · intro hnone
          cases hlvs : lastInRange vs with
          | none => simp [lastInRange, hlvs, hv] at hnone
          | some w => simp [lastInRange, hlvs] at hnone
        · intro w hw
          cases hlvs : lastInRange vs with
          | some w2 =>
            have hww : w2 = w := by simp [lastInRange, hlvs] at hw; exact hw
            rw [hstep, ← hww]
            exact ihs.2 w2 hlvs
          | none =>
            have hwv : v = w := by
              simp [lastInRange, hlvs, hv] at hw
              exact hw
            rw [hstep, ihs.1 hlvs, ← hwv]
            constructor
            · rw [countP_setFirstRatingQ]; exact hcnt1
            · exact find_setFirstRatingQ u v rs hex
      · have hstep : applyRatesRaw u rs (v :: vs) =
            applyRatesRaw u (rs ++ [⟨u, v⟩]) vs := by
          simp [applyRatesRaw, rateUpsertRaw, hv, hex]
        have hcnt0 : rs.countP (fun r => r.user == u) = 0 := by
          by_contra hc
          exact hex ((any_user_iff_countP_q u rs).2 (Nat.pos_of_ne_zero hc))
        have hcnt : (rs ++ [RatingQ.mk u v]).countP (fun r => r.user == u) ≤ 1 := by
          simp [List.countP_append, hcnt0, List.countP_cons]
        have ihs := ih (rs ++ [⟨u, v⟩]) hcnt
        constructor
        · intro hnone
          cases hlvs : lastInRange vs with
          | none => simp [lastInRange, hlvs, hv] at hnone
          | some w => simp [lastInRange, hlvs] at hnone
        · intro w hw
          cases hlvs : lastInRange vs with
          | some w2 =>
            have hww : w2 = w := by simp [lastInRange, hlvs] at hw; exact hw
            rw [hstep, ← hww]
            exact ihs.2 w2 hlvs
          | none =>
            have hwv : v = w := by
              simp [lastInRange, hlvs, hv] at hw
              exact hw
            rw [hstep, ihs.1 hlvs, ← hwv]
            have hfnone : rs.find? (fun r => r.user == u) = none :=
              List.find?_eq_none.2 (not_any_user_q u rs hex)
            constructor
            · simp [List.countP_append, hcnt0, List.countP_cons]
            · rw [List.find?_append, hfnone]
              simp [List.find?]

/-- C3 counterexample: the submission 4.5 (`mkRat 9 2`) is not an integer,
yet neither handler rejects it — part_002 truncates it to 4 via `parseInt`
and stores that, routes/recipes.js stores the raw 4.5 — while the claim, as
stated, requires an InvalidInput failure on any non-integer submission. -/
theorem rate_fractional_counterexample :
    rateUpsert [] 7 (mkRat 9 2) = Except.ok [⟨7, 4⟩] ∧
    rateUpsertRaw [] 7 (mkRat 9 2) = Except.ok [⟨7, mkRat 9 2⟩] ∧
    ¬ ∃ n : Int, (mkRat 9 2) = (n : ℚ) := by
  refine ⟨by rfl, by rfl, ?_⟩
  rintro ⟨n, hn⟩
  have hd : (mkRat 9 2).den = 1 := by rw [hn]; exact Rat.den_intCast n
  exact absurd hd (by decide)

/-- C3 (amended): the rate operation is an upsert keyed by (recipe, user),
but submissions need not be integers. The part_002 handler truncates the
submission toward zero (`parseInt`) and answers 400 exactly when the
truncation lies outside 1–5 (so 4.5 is accepted, stored as 4); the
routes/recipes.js handler answers 400 exactly when the raw value lies
outside [1, 5] and stores the raw, possibly fractional, value. In both,
after any sequence of submissions by one user with at least one accepted,
the ratings hold exactly one entry for that user, valued at the —
respectively truncated or raw — most recent accepted submission. Stated
under the data-model invariant of at most one pre-existing entry per
user. -/
theorem rate_upsert_last_accepted (rs : List Rating) (rsq : List RatingQ)
    (u : Nat) (vs : List ℚ) (w : Int) (wq : ℚ)
    (hinv : rs.countP (fun r => r.user == u) ≤ 1)
    (hinvq : rsq.countP (fun r => r.user == u) ≤ 1)
    (hw : lastAccepted vs = some w)
    (hwq : lastInRange vs = some wq) :
    (∀ v : ℚ, (jsParseInt v < 1 ∨ 5 < jsParseInt v) ↔
      rateUpsert rs u v =
        .error (.invalidInput "Rating must be a number between 1 and 5")) ∧
    (applyRates u rs vs).countP (fun r => r.user == u) = 1 ∧
    (applyRates u rs vs).find? (fun r => r.user == u) = some ⟨u, w⟩ ∧
    (∀ v : ℚ, (v < 1 ∨ 5 < v) ↔
      rateUpsertRaw rsq u v =
        .error (.invalidInput "Rating must be between 1 and 5")) ∧
    (applyRatesRaw u rsq vs).countP (fun r => r.user == u) = 1 ∧
    (applyRatesRaw u rsq vs).find? (fun r => r.user == u) = some ⟨u, wq⟩ := by
  have hint := (applyRates_invariant u vs rs hinv).2 w hw
  have hq := (applyRatesRaw_invariant u vs rsq hinvq).2 wq hwq
  refine ⟨?_, hint.1, hint.2, ?_, hq.1, hq.2⟩
  · intro v
    constructor
    · intro hv; simp [rateUpsert, hv]
    · intro he
      by_contra hv
      by_cases hex : rs.any (fun r => r.user == u) = true
      · simp [rateUpsert, hv, hex] at he
      · simp [rateUpsert, hv, hex] at he
  · intro v
    constructor
    · intro hv; simp [rateUpsertRaw, hv]
    · intro he
      by_contra hv
      by_cases hex : rsq.any (fun r => r.user == u) = true
      · simp [rateUpsertRaw, hv, hex] at he
      · simp [rateUpsertRaw, hv, hex] at he

/-- Witness for `rate_upsert_last_accepted`: user 3 submits 5.9 (accepted
truncated to 5 by part_002 yet rejected raw), then 4.5, then 7 (rejected by
both) on stores where user 3 already rated 2. -/
theorem rate_upsert_last_accepted_witness :
    (applyRates 3 [⟨3, 2⟩] [mkRat 59 10, mkRat 9 2, 7]).find? (fun r => r.user == 3) =
      some ⟨3, 4⟩ ∧
    (applyRatesRaw 3 [⟨3, 2⟩] [mkRat 59 10, mkRat 9 2, 7]).find? (fun r => r.user == 3) =
      some ⟨3, mkRat 9 2⟩ :=
  let H := rate_upsert_last_accepted [⟨3, 2⟩] [⟨3, 2⟩] 3 [mkRat 59 10, mkRat 9 2, 7] 4
    (mkRat 9 2) (by decide) (by decide) (by decide) (by decide)
  ⟨H.2.2.1, H.2.2.2.2.2⟩

/-- `dedupFirst` yields a duplicate-free list avoiding the seen set. -/
theorem dedupFirst_nodup_and_avoid (l : List String) :
    ∀ seen, (dedupFirst seen l).Nodup ∧ ∀ x ∈ dedupFirst seen l, x ∉ seen := by
  induction l with
  | nil => intro seen; simp [dedupFirst]
  | cons x xs ih =>
    intro seen
    by_cases hx : x ∈ seen
    · simpa [dedupFirst, hx] using ih seen
    · have h2 := ih (x :: seen)
      refine ⟨?_, ?_⟩
      · simp only [dedupFirst, hx, if_false, List.nodup_cons]
        refine ⟨fun hmem => ?_, h2.1⟩
        exact (h2.2 x hmem) (by simp)
      · intro y hy
        simp only [dedupFirst, hx, if_false, List.mem_cons] at hy
        rcases hy with rfl | hy
        · exact hx
        · intro hyseen
          exact (h2.2 y hy) (by simp [hyseen])

/-- `dedupFirst` is a sublist of its input (first-occurrence order kept). -/
theorem dedupFirst_sublist (l : List String) :
    ∀ seen, (dedupFirst seen l).Sublist l := by
  induction l with
  | nil => intro seen; simp [dedupFirst]
  | cons x xs ih =>
    intro seen
    by_cases hx : x ∈ seen
    · simp only [dedupFirst, hx, if_true]
      exact (ih seen).trans (List.sublist_cons_self x xs)
    · simp only [dedupFirst, hx, if_false]
      exact (ih (x :: seen)).cons₂ x

/-- C4 counterexample: on eleven tags whose first ten contain a duplicate,
the code (truncate to 10, then deduplicate — 9 tags survive, "j" dropped)
differs from the claim (deduplicate, then truncate — all 10 distinct tags
survive). -/
theorem tags_truncation_counterexample :
    normalizeTags ["a", "a", "b", "c", "d", "e", "f", "g", "h", "i", "j"] ≠
      normalizeTagsSpec ["a", "a", "b", "c", "d", "e", "f", "g", "h", "i", "j"] := by
  decide

/-- C4 (amended): normalized tags are lowercased and trimmed, empty strings
dropped, truncated to the first 10 entries BEFORE deduplication, then
deduplicated keeping the order of first occurrence (hence duplicate-free,
at most 10, a subsequence of the mapped input); a non-list tags payload is
rejected. -/
theorem tags_truncate_before_dedup (ts : List String) (p : RawPayload) (d : Draft)
    (hp : p.tags = TagsField.notList) :
    (normalizeTags ts =
      dedupFirst []
        (((ts.map (fun t => jsToLower (jsTrim t))).filter (fun t => t != "")).take 10)) ∧
    (normalizeTags ts).Nodup ∧
    (normalizeTags ts).length ≤ 10 ∧
    (normalizeTags ts).Sublist
      ((ts.map (fun t => jsToLower (jsTrim t))).filter (fun t => t != "")) ∧
    (∀ x ∈ normalizeTags ts, x ≠ "" ∧ x ∈ ts.map (fun t => jsToLower (jsTrim t))) ∧
    validateRecipeData p ≠ .ok d := by
  have heq : normalizeTags ts =
      dedupFirst []
        (((ts.map (fun t => jsToLower (jsTrim t))).filter (fun t => t != "")).take 10) := by
    unfold normalizeTags
    by_cases hlen :
        ((ts.map (fun t => jsToLower (jsTrim t))).filter (fun t => t != "")).length > 10
    · simp [hlen]
    · have hle :
          ((ts.map (fun t => jsToLower (jsTrim t))).filter (fun t => t != "")).length ≤ 10 := by
        omega
      simp [hlen, List.take_of_length_le hle]
  have hsub : (normalizeTags ts).Sublist
      ((ts.map (fun t => jsToLower (jsTrim t))).filter (fun t => t != "")) := by
    rw [heq]
    exact (dedupFirst_sublist _ []).trans (List.take_sublist _ _)
  refine ⟨heq, ?_, ?_, hsub, ?_, ?_⟩
  · rw [heq]
    exact (dedupFirst_nodup_and_avoid _ []).1
  · calc (normalizeTags ts).length
        ≤ (((ts.map (fun t => jsToLower (jsTrim t))).filter
            (fun t => t != "")).take 10).length :=
          (heq ▸ (dedupFirst_sublist _ []).length_le)
      _ ≤ 10 := List.length_take_le 10 _
  · intro x hx
    have hmem := hsub.mem hx
    simp only [List.mem_filter, bne_iff_ne, ne_eq] at hmem
    exact ⟨hmem.2, hmem.1⟩
  · intro hok
    unfold validateRecipeData at hok
    rw [hp] at hok
    repeat (first
      | exact Except.noConfusion hok
      | split at hok)

/-- Witness for `tags_truncate_before_dedup`: a payload with non-list tags
is rejected. -/
theorem tags_truncate_before_dedup_witness :
    validateRecipeData ⟨"Cake", "", .list ["x"], .list ["y"], .notList⟩ ≠
      Except.ok ⟨"Cake", "", ["x"], ["y"], []⟩ :=
  (tags_truncate_before_dedup [] ⟨"Cake", "", .list ["x"], .list ["y"], .notList⟩
    ⟨"Cake", "", ["x"], ["y"], []⟩ rfl).2.2.2.2.2

/-- The failure conditions C5 lists for a serialized list field: not a
list, empty, over the entry cap, or some entry over the character cap after
trimming. -/
def badListField (cap elemCap : Nat) : JsonField → Prop
  | .notList => True
  | .list xs => xs = [] ∨ cap < xs.length ∨ ∃ x ∈ xs, elemCap < (jsTrim x).length

/-- A payload accepted by the validation violates none of the C5
conditions on ingredients (cap 20/150) or instructions (cap 15/300). -/
theorem validate_ok_not_bad (p : RawPayload) (d : Draft)
    (hok : validateRecipeData p = Except.ok d) :
    ¬ badListField 20 150 p.ingredients ∧ ¬ badListField 15 300 p.instructions := by
  unfold validateRecipeData at hok
  by_cases h1 : jsTrim p.title = ""
  · simp [h1] at hok
  rw [if_neg h1] at hok
  by_cases h2 : (jsTrim p.title).length < 3 ∨ 100 < (jsTrim p.title).length
  · simp [h2] at hok
  rw [if_neg h2] at hok
  cases hpi : p.ingredients with
  | notList => rw [hpi] at hok; exact absurd hok (by simp)
  | list ings =>
    rw [hpi] at hok
    dsimp only at hok
    by_cases h3 : ings.length = 0
    · simp [h3] at hok
    rw [if_neg h3] at hok
    by_cases h4 : 20 < ings.length
    · simp [h4] at hok
    rw [if_neg h4] at hok
    by_cases h5 :
        ings.any (fun ing => decide (jsTrim ing = "" ∨ 150 < (jsTrim ing).length)) = true
    · rw [if_pos h5] at hok
      exact Except.noConfusion hok
    rw [if_neg h5] at hok
    cases hqi : p.instructions with
    | notList => rw [hqi] at hok; exact absurd hok (by simp)
    | list steps =>
      rw [hqi] at hok
      dsimp only at hok
      by_cases g3 : steps.length = 0
      · simp [g3] at hok
      rw [if_neg g3] at hok
      by_cases g4 : 15 < steps.length
      · simp [g4] at hok
      rw [if_neg g4] at hok
      by_cases g5 :
          steps.any (fun step => decide (jsTrim step = "" ∨ 300 < (jsTrim step).length)) = true
      · rw [if_pos g5] at hok
        exact Except.noConfusion hok
      rw [if_neg g5] at hok
      constructor
      · simp only [badListField, not_or]
        refine ⟨?_, h4, ?_⟩
        · intro hnil; exact h3 (by simp [hnil])
        · rintro ⟨x, hx, hcap⟩
          exact h5 (List.any_eq_true.2 ⟨x, hx, by simp [hcap]⟩)
      · simp only [badListField, not_or]
        refine ⟨?_, g4, ?_⟩
        · intro hnil; exact g3 (by simp [hnil])
        · rintro ⟨x, hx, hcap⟩
          exact g5 (List.any_eq_true.2 ⟨x, hx, by simp [hcap]⟩)

/-- C5: a creation payload whose ingredients or instructions are not a
list, empty, over the caps (20 / 15), or holding an over-long entry
(150 / 300 after trimming) is rejected by the validation middleware with a
400, and no recipe is ever persisted for it. -/
theorem create_invalid_rejected (store : List Recipe) (nextId author createdAt : Nat)
    (image : Option String) (p : RawPayload)
    (h : badListField 20 150 p.ingredients ∨ badListField 15 300 p.instructions) :
    (∃ e, validateRecipeData p = Except.error e) ∧
    (∀ store2, createRecipe store nextId author createdAt image p ≠ Except.ok store2) := by
  have hval : ∃ e, validateRecipeData p = Except.error e := by
    cases hv : validateRecipeData p with
    | error e => exact ⟨e, rfl⟩
    | ok d =>
      have hnb := validate_ok_not_bad p d hv
      rcases h with h | h
      · exact absurd h hnb.1
      · exact absurd h hnb.2
  rcases hval with ⟨e, he⟩
  refine ⟨⟨e, he⟩, ?_⟩
  intro store2 hc
  simp [createRecipe, he] at hc

/-- Witness for `create_invalid_rejected`: a payload with 21 ingredients
(and otherwise valid fields) fails and persists nothing. -/
theorem create_invalid_rejected_witness :
    ∃ e, validateRecipeData
      ⟨"Chocolate Cake", "", .list (List.replicate 21 "x"), .list ["mix"], .absent⟩ =
        Except.error e :=
  (create_invalid_rejected [] 1 1 0 none
    ⟨"Chocolate Cake", "", .list (List.replicate 21 "x"), .list ["mix"], .absent⟩
    (Or.inl (Or.inr (Or.inl (by simp))))).1

/-- A concrete sample recipe used in witnesses. -/
def sampleRecipe : Recipe :=
  { rid := 1, title := "Chocolate Cake", description := "rich", image := none,
    tags := ["dessert"], ingredients := ["flour"], instructions := ["mix"],
    author := 42, likes := [], ratings := [⟨7, 3⟩, ⟨9, 5⟩], comments := [],
    createdAt := 5 }

/-- C6: update and delete answer 404 when the recipe is missing (never 403 —
the existence check runs first), 403 when the caller is not the author, and
an author delete succeeds, after which fetching that id is 404. -/
theorem delete_update_auth_order (store : List Recipe) (i caller : Nat) (d : Draft) :
    (findRecipe store i = none →
      deleteRecipe store i caller = .error .notFound ∧
      updateRecipe store i caller d = .error .notFound) ∧
    (∀ r, findRecipe store i = some r → r.author ≠ caller →
      deleteRecipe store i caller = .error .forbidden ∧
      updateRecipe store i caller d = .error .forbidden) ∧
    (∀ r, findRecipe store i = some r → r.author = caller →
      ∃ store2, deleteRecipe store i caller = .ok store2 ∧ findRecipe store2 i = none) := by
  refine ⟨?_, ?_, ?_⟩
  · intro hn
    constructor
    · simp [deleteRecipe, hn]
    · simp [updateRecipe, hn]
  · intro r hr hne
    constructor
    · simp [deleteRecipe, hr, hne]
    · simp [updateRecipe, hr, hne]
  · intro r hr hauth
    refine ⟨store.filter (fun x => x.rid != i), ?_, ?_⟩
    · simp [deleteRecipe, hr, hauth]
    · rw [findRecipe, List.find?_eq_none]
      intro x hx
      have hne := (List.mem_filter.1 hx).2
      simpa using hne

/-- Witness for `delete_update_auth_order`: the author (42) deletes recipe 1
and a subsequent fetch misses. -/
theorem delete_update_auth_order_witness :
    ∃ store2, deleteRecipe [sampleRecipe] 1 42 = Except.ok store2 ∧
      findRecipe store2 1 = none :=
  (delete_update_auth_order [sampleRecipe] 1 42
    ⟨"Tart", "", ["x"], ["y"], []⟩).2.2 sampleRecipe rfl rfl

/-- C7: with a non-empty search string the listing filter selects exactly
the recipes whose title, description, or some tag case-insensitively
contains the search text (logical OR over the three fields); an additional
tag filter requires membership of the lowercased tag (logical AND with the
search clause); the listing's `total` counts exactly the recipes passing
this filter, and every row of any returned page comes from a store recipe
passing it. -/
theorem listing_search_filter (store : List Recipe) (s t : String)
    (hs : s ≠ "") (ht : t ≠ "") :
    (∀ r : Recipe,
      r ∈ store.filter (matchesQuery (some s) none) ↔
        r ∈ store ∧ (ciContains r.title s = true ∨ ciContains r.description s = true ∨
          ∃ tg ∈ r.tags, ciContains tg s = true)) ∧
    (∀ r : Recipe,
      r ∈ store.filter (matchesQuery (some s) (some t)) ↔
        r ∈ store ∧ (ciContains r.title s = true ∨ ciContains r.description s = true ∨
          ∃ tg ∈ r.tags, ciContains tg s = true) ∧ jsToLower t ∈ r.tags) ∧
    (∀ page limit sort ord,
      (listRecipes store (some s) (some t) page limit sort ord).pageMeta.total =
        (store.filter (matchesQuery (some s) (some t))).length) ∧
    (∀ page limit sort ord x,
      x ∈ (listRecipes store (some s) (some t) page limit sort ord).recipes →
      ∃ r, r ∈ store ∧ matchesQuery (some s) (some t) r = true ∧ x = projectSummary r) := by
  refine ⟨?_, ?_, ?_, ?_⟩
  · intro r
    simp [List.mem_filter, matchesQuery, matchesSearch, hs, and_assoc, or_assoc]
  · intro r
    simp [List.mem_filter, matchesQuery, matchesSearch, hs, ht, and_assoc, or_assoc]
  · intro page limit sort ord
    rfl
  · intro page limit sort ord x hx
    simp only [listRecipes, List.mem_map] at hx
    rcases hx with ⟨r, hrmem, rfl⟩
    have hr1 : r ∈ sortRecipes sort ord (store.filter (matchesQuery (some s) (some t))) :=
      List.drop_subset _ _ (List.take_subset _ _ hrmem)
    have hr2 : r ∈ store.filter (matchesQuery (some s) (some t)) :=
      (List.perm_insertionSort _ _).mem_iff.1 hr1
    have hr3 := List.mem_filter.1 hr2
    exact ⟨r, hr3.1, hr3.2, rfl⟩

/-- Witness for `listing_search_filter` with search "choco" and tag
"dessert" on a one-recipe store. -/
theorem listing_search_filter_witness :
    (listRecipes [sampleRecipe] (some "choco") (some "dessert") none none
      "createdAt" "desc").pageMeta.total =
      ([sampleRecipe].filter (matchesQuery (some "choco") (some "dessert"))).length :=
  (listing_search_filter [sampleRecipe] "choco" "dessert" (by decide)
    (by decide)).2.2.1 none none "createdAt" "desc"

/-- `Math.ceil(total / limit)` agrees with the natural-number form
`(total + limit - 1) / limit` used in the embedding. -/
theorem add_pred_div_eq_ceil (n m : Nat) (hm : 0 < m) :
    (n + m - 1) / m = Nat.ceil ((n : ℚ) / (m : ℚ)) := by
  have hmq : (0 : ℚ) < (m : ℚ) := by exact_mod_cast hm
  have h1 : ∀ k : Nat, (n + m - 1) / m ≤ k ↔ n ≤ k * m := by
    intro k
    rw [Nat.div_le_iff_le_mul_add_pred hm, Nat.mul_comm m k]
    generalize k * m = q
    omega
  have h2 : ∀ k : Nat, Nat.ceil ((n : ℚ) / (m : ℚ)) ≤ k ↔ n ≤ k * m := by
    intro k
    rw [Nat.ceil_le, div_le_iff₀ hmq]
    exact_mod_cast Iff.rfl
  exact le_antisymm ((h1 _).2 ((h2 _).1 le_rfl)) ((h2 _).2 ((h1 _).1 le_rfl))

/-- C8: the listing's effective page is ≥ 1 and its effective page size lies
in 1–50 (default 12); the returned page is the slice skipping
`(page-1)*limit` of the sorted matches and holds at most `limit` rows;
`total` counts all recipes matching the same filter, independent of `page`
and `limit`; `pages = ceil(total/limit)`; `hasNext ↔ page*limit < total`;
`hasPrev ↔ page > 1`; zero matches give an empty list, `total = 0` and
`pages = 0`. -/
theorem listing_pagination (store : List Recipe) (search tag : Option String)
    (page limit : Option Int) (sort ord : String) :
    ∀ resp, resp = listRecipes store search tag page limit sort ord →
    (1 ≤ resp.pageMeta.page) ∧
    (1 ≤ resp.pageMeta.limit ∧ resp.pageMeta.limit ≤ 50) ∧
    (limit = none → resp.pageMeta.limit = 12) ∧
    (resp.recipes =
      (((sortRecipes sort ord (store.filter (matchesQuery search tag))).drop
        ((resp.pageMeta.page - 1) * resp.pageMeta.limit)).take
          resp.pageMeta.limit).map projectSummary) ∧
    (resp.recipes.length ≤ resp.pageMeta.limit) ∧
    (resp.pageMeta.total = (store.filter (matchesQuery search tag)).length) ∧
    (∀ page2 limit2 : Option Int,
      (listRecipes store search tag page2 limit2 sort ord).pageMeta.total =
        resp.pageMeta.total) ∧
    ((sortRecipes sort ord (store.filter (matchesQuery search tag))).length =
      resp.pageMeta.total) ∧
    (resp.pageMeta.pages =
      Nat.ceil ((resp.pageMeta.total : ℚ) / (resp.pageMeta.limit : ℚ))) ∧
    (resp.pageMeta.hasNext = true ↔
      resp.pageMeta.page * resp.pageMeta.limit < resp.pageMeta.total) ∧
    (resp.pageMeta.hasPrev = true ↔ 1 < resp.pageMeta.page) ∧
    (store.filter (matchesQuery search tag) = [] →
      resp.recipes = [] ∧ resp.pageMeta.total = 0 ∧ resp.pageMeta.pages = 0) := by
  intro resp hresp
  subst hresp
  have ha : (1 : Int) ≤ max 1 (page.getD 1) := le_max_left _ _
  have hb : min 50 (max 1 (limit.getD 12)) ≤ 50 := min_le_left _ _
  have hc : (1 : Int) ≤ min 50 (max 1 (limit.getD 12)) :=
    le_min (by norm_num) (le_max_left _ _)
  have hpage : (listRecipes store search tag page limit sort ord).pageMeta.page =
      (max 1 (page.getD 1)).toNat := rfl
  have hlimit : (listRecipes store search tag page limit sort ord).pageMeta.limit =
      (min 50 (max 1 (limit.getD 12))).toNat := rfl
  have hlim1 : 1 ≤ (min 50 (max 1 (limit.getD 12))).toNat := by omega
  have hlim50 : (min 50 (max 1 (limit.getD 12))).toNat ≤ 50 := by omega
  refine ⟨?_, ⟨?_, ?_⟩, ?_, rfl, ?_, rfl, fun page2 limit2 => rfl, ?_, ?_, ?_, ?_, ?_⟩
  · rw [hpage]; omega
  · rw [hlimit]; exact hlim1
  · rw [hlimit]; exact hlim50
  · intro h
    subst h
    rw [hlimit]
    decide
  · simp only [listRecipes, List.length_map]
    exact List.length_take_le _ _
  · exact List.length_insertionSort _ _
  · rw [hlimit]
    exact add_pred_div_eq_ceil _ _ (by omega)
  · simp [listRecipes]
  · simp [listRecipes]
  · intro h0
    refine ⟨?_, ?_, ?_⟩
    · show (((sortRecipes sort ord (store.filter (matchesQuery search tag))).drop _).take
        _).map projectSummary = []
      rw [h0]
      simp [sortRecipes]
    · show (store.filter (matchesQuery search tag)).length = 0
      rw [h0]; rfl
    · show ((store.filter (matchesQuery search tag)).length + _ - 1) / _ = 0
      rw [h0]
      simp only [List.length_nil, Nat.zero_add]
      exact Nat.div_eq_of_lt (by omega)

/-- Witness for `listing_pagination`: default parameters on a one-recipe
store give page size 12. -/
theorem listing_pagination_witness :
    (listRecipes [sampleRecipe] none none none none "createdAt" "desc").pageMeta.limit = 12 :=
  (listing_pagination [sampleRecipe] none none none none "createdAt" "desc"
    (listRecipes [sampleRecipe] none none none none "createdAt" "desc") rfl).2.2.1 rfl

/-- One follow request preserves the follower/following symmetry: both
arrays are updated together (or neither, on an error response). -/
theorem followSym_step (s : FollowState) (c t : Nat) (h : FollowSym s) :
    FollowSym (followStep s (c, t)) := by
  unfold followStep followToggle
  by_cases hct : t = c
  · simpa [hct] using h
  · by_cases hp : (s.present t && s.present c) = true
    · by_cases hf : (s.following c).contains t
      · simp only [hct, if_false, hp, if_true, hf]
        intro a b
        by_cases hbt : b = t <;> by_cases hac : a = c
        · subst hbt; subst hac
          simp [List.mem_filter]
        · subst hbt
          simp [List.mem_filter, hac, h a b]
        · subst hac
          simp [List.mem_filter, hbt, h a b]
        · simp [hbt, hac, h a b]
      · simp only [hct, if_false, hp, if_true, hf]
        intro a b
        by_cases hbt : b = t <;> by_cases hac : a = c
        · subst hbt; subst hac
          simp
        · subst hbt
          simp [hac, h a b]
        · subst hac
          simp [hbt, h a b]
        · simp [hbt, hac, h a b]
    · simp only [hct, if_false, hp]
      simpa using h

/-- C9: after any sequence of follow-toggle requests, `A` is among `B`'s
followers iff `B` is among `A`'s following — each toggle updates both
users' arrays together, so the symmetry invariant of the follow graph is
preserved. -/
theorem follow_symmetry_preserved (s : FollowState) (ops : List (Nat × Nat))
    (h : FollowSym s) : FollowSym (applyFollows s ops) := by
  induction ops generalizing s with
  | nil => exact h
  | cons op rest ih =>
    cases op with
    | mk c t => exact ih (followStep s (c, t)) (followSym_step s c t h)

/-- Witness for `follow_symmetry_preserved`: three toggles among users 1
and 2 starting from the empty (symmetric) graph. -/
theorem follow_symmetry_preserved_witness :
    FollowSym (applyFollows ⟨fun _ => true, fun _ => [], fun _ => []⟩
      [(1, 2), (2, 1), (1, 2)]) :=
  follow_symmetry_preserved ⟨fun _ => true, fun _ => [], fun _ => []⟩
    [(1, 2), (2, 1), (1, 2)] (fun a b => by simp)

/-- C10: a follow request whose target equals the caller is rejected with
the 400 response before any lookup or write, and every user's followers and
following arrays are left unchanged. -/
theorem self_follow_rejected (s : FollowState) (u : Nat) :
    followToggle s u u = .error (.invalidInput "Cant follow yourself") ∧
    followStep s (u, u) = s ∧
    (∀ v, (applyFollows s [(u, u)]).followers v = s.followers v ∧
      (applyFollows s [(u, u)]).following v = s.following v) := by
  have h1 : followToggle s u u = .error (.invalidInput "Cant follow yourself") := by
    simp [followToggle]
  have h2 : followStep s (u, u) = s := by
    simp [followStep, h1]
  exact ⟨h1, h2, fun v => by simp [applyFollows, h2]⟩
